import Mathlib

/-!
Verification of the crawl control loop of `scraper.py` (a polite, self-bounded
breadth-first web crawler): frontier management (queue + visited set),
per-origin robots.txt compliance caching, domain-scoped link filtering, and
the termination policy combining page-count and token-budget limits.

The development is a shallow embedding: the crawler's state is made explicit
and each construct of `crawl` / `allowed_by_robots` is translated into a Lean
definition.  External collaborators (HTTP transport, HTML parsing / text
extraction / link discovery) are abstracted as a `World` providing, for each
URL, the fetch outcome together with the extracted text and the discovered
(already resolved) links — exactly the data the control loop consumes.
-/

namespace Scraper

/-- A parsed absolute URL, as produced by Python's `urlparse`: the `scheme`
and `netloc` components that the crawler inspects, and the remainder of the
URL (path, query, ...) kept opaque in `rest`.  Identity is structural,
matching the source's exact-string dedup identity. -/
structure Url where
  scheme : String
  netloc : String
  rest : String
deriving DecidableEq, Repr

/-- The (scheme, host[:port]) pair at which robots.txt is fetched and cached:
`base = f"{parsed.scheme}://{parsed.netloc}"` in `allowed_by_robots`. -/
structure Origin where
  scheme : String
  netloc : String
deriving DecidableEq, Repr

/-- `urlparse(url)` followed by forming `f"{parsed.scheme}://{parsed.netloc}"`. -/
def Url.origin (u : Url) : Origin := ⟨u.scheme, u.netloc⟩

/-- The fixed `User-Agent` from `HEADERS` in scraper.py. -/
def userAgent : String := "MyLMTrainer/1.0 (+https://yourdomain.com)"

/-! ### The robots layer

`allowed_by_robots` delegates to `urllib.robotparser.RobotFileParser`.  The
fields of that class that decide `can_fetch` are embedded here faithfully
(CPython `Lib/urllib/robotparser.py`): `disallow_all`, `allow_all`, the
`last_checked` timestamp (zero until `parse` ran), and the parsed
allow/disallow entries, which we abstract as a verdict function since their
internal path-matching never matters for the control-flow claims. -/

/-- State of one `RobotFileParser` as far as `can_fetch` consults it.
`ruleVerdict` stands for the evaluation of the parsed `entries` /
`default_entry` (with the "agent not found ==> access granted" fallback);
for a freshly constructed parser the entry list is empty, so the fallback
verdict is `true` — but it is guarded by `lastChecked = 0`. -/
structure RobotFileParser where
  disallowAll : Bool
  allowAll : Bool
  lastChecked : Nat
  ruleVerdict : String → Url → Bool

/-- `RobotFileParser()`: `disallow_all = allow_all = False`, `last_checked = 0`,
no entries (so the rule fallback grants access). -/
def newRobotFileParser : RobotFileParser :=
  { disallowAll := false, allowAll := false, lastChecked := 0,
    ruleVerdict := fun _ _ => true }

/-- Outcome of retrieving `origin`'s `/robots.txt`, i.e. of the
`urllib.request.urlopen` call inside `RobotFileParser.read`:
* `ok verdict` — the fetch succeeded and the body parsed into rules whose
  evaluation is `verdict`;
* `httpError code` — `urlopen` raised `HTTPError(code)`, which `read`
  handles internally;
* `raised` — `urlopen` raised a non-HTTP error (DNS failure, refused
  connection, timeout) or the body was not valid UTF-8: the exception
  propagates out of `read()`. -/
inductive RobotsFetchOutcome where
  | ok (verdict : String → Url → Bool)
  | httpError (code : Nat)
  | raised

/-- `rp.read()` on a fresh parser, given the fetch outcome.  Returns the
parser state afterwards and whether `read` raised (in which case the parser
state is unchanged).  Mirrors CPython: on success, `parse` runs (setting
`last_checked` via `modified()`); on `HTTPError` 401/403 it sets
`disallow_all`, on other 4xx it sets `allow_all`, on any other code it sets
nothing; `last_checked` stays 0 in every `HTTPError` branch. -/
def rpRead (outcome : RobotsFetchOutcome) (rp : RobotFileParser) :
    RobotFileParser × Bool :=
  match outcome with
  | .ok verdict => ({ rp with lastChecked := 1, ruleVerdict := verdict }, false)
  | .httpError code =>
      if code = 401 ∨ code = 403 then ({ rp with disallowAll := true }, false)
      else if 400 ≤ code ∧ code < 500 then ({ rp with allowAll := true }, false)
      else (rp, false)
  | .raised => (rp, true)

/-- `rp.can_fetch(useragent, url)` from CPython's robotparser: `disallow_all`
forces `False`, `allow_all` forces `True`, a parser whose robots.txt was
never successfully read (`last_checked` still 0) answers `False`, and
otherwise the parsed rules decide. -/
def canFetch (rp : RobotFileParser) (ua : String) (u : Url) : Bool :=
  if rp.disallowAll then false
  else if rp.allowAll then true
  else if rp.lastChecked = 0 then false
  else rp.ruleVerdict ua u

/-- Association-list lookup standing for `robots_parsers.get(base)`. -/
def lookupParser (base : Origin) : List (Origin × RobotFileParser) → Option RobotFileParser
  | [] => none
  | (o, rp) :: rest => if o = base then some rp else lookupParser base rest

/-- `allowed_by_robots(url, robots_parsers)` from scraper.py, with the network
behaviour of the robots.txt fetch supplied by the oracle `outcomes` (fixed per
origin for the whole run, matching the single fetch-and-cache per origin).
On a cache miss a fresh parser is created, `rp.read()` is attempted — an
exception from it is caught and only logged — and the parser is cached
either way; the call returns `rp.can_fetch(HEADERS["User-Agent"], url)`
together with the updated cache. -/
def allowed_by_robots (outcomes : Origin → RobotsFetchOutcome) (u : Url)
    (robots_parsers : List (Origin × RobotFileParser)) :
    Bool × List (Origin × RobotFileParser) :=
  let base := u.origin
  match lookupParser base robots_parsers with
  | some rp => (canFetch rp userAgent u, robots_parsers)
  | none =>
      let rp := (rpRead (outcomes base) newRobotFileParser).1
      (canFetch rp userAgent u, robots_parsers ++ [(base, rp)])

/-! ### The crawl loop

`crawl(start_urls, max_pages, delay, output_file, max_tokens, allowed_domains)`
is embedded as a fuel-indexed iteration of one loop-body step over an explicit
state.  The external collaborators of §6 of the design (HTTP fetch, text
extraction, link discovery) are a `World`: for each URL either the fetch
raises (`none`) or yields a `Page` carrying `extract_text(html)` and the
anchors of the page already resolved by `urljoin(url, href)` and parsed. -/

/-- What the collaborators produce from one successfully fetched page:
`text = extract_text(html)` and the resolved absolute link targets
`urljoin(url, href)` (parsed into components) of all `<a href=...>` anchors,
in document order. -/
structure Page where
  text : String
  links : List Url
deriving Repr

/-- The environment of a run: the fetch outcome of every URL (`none` models
`fetch_url` raising) and the robots verdict `allowed_by_robots` computes for
every URL.  The robots verdict is a stable function of the URL because the
parser for an origin is created once, from a fixed fetch outcome, and cached
unchanged for the whole run. -/
structure World where
  fetch : Url → Option Page
  robotsAllowed : Url → Bool

/-- The run limits: `max_pages` (default 100) and optional `max_tokens`. -/
structure Config where
  maxPages : Nat
  maxTokens : Option Nat
deriving Repr

/-- The loop's mutable state, plus observation logs with no effect on
control flow: `written` records the texts appended to the output file (each
followed by a blank-line separator in the source), `fetched` records each
invocation of `fetch_url` in order, `sleeps` counts `time.sleep(delay)`
calls, `popLog` records each `queue.pop(0)` and `pushLog` every URL ever
placed into the queue (seeds first, then appended links), in order. -/
structure CrawlState where
  seen : List Url
  queue : List Url
  tokenCount : Nat
  written : List String
  fetched : List Url
  sleeps : Nat
  popLog : List Url
  pushLog : List Url
deriving DecidableEq, Repr

/-- `seen = set()`, `queue = list(start_urls)`, `token_count = 0`. -/
def initState (start_urls : List Url) : CrawlState :=
  { seen := [], queue := start_urls, tokenCount := 0, written := [],
    fetched := [], sleeps := 0, popLog := [], pushLog := start_urls }

/-- `seen.add(url)`: set insertion, kept as duplicate-free list append so
that `seen.length` is the set's cardinality `len(seen)`. -/
def insertSeen (u : Url) (seen : List Url) : List Url :=
  if u ∈ seen then seen else seen ++ [u]

/-- `len(text.split())`: the number of maximal whitespace-free runs in
`text`, Python's whitespace word count.  `inWord` tells whether the previous
character was part of a word. -/
def wordCountAux : List Char → Bool → Nat
  | [], _ => 0
  | c :: cs, inWord =>
      if c.isWhitespace then wordCountAux cs false
      else (if inWord then 0 else 1) + wordCountAux cs true

/-- `len(text.split())` on a string. -/
def wordCount (text : String) : Nat := wordCountAux text.data false

/-- The per-link body of the discovery loop (lines 101–111 of scraper.py)
applied to one resolved link `full`: skip unless the scheme is http/https,
skip unless the netloc is in `allowed_domains`, and append to the queue only
if not already seen and not already pending. -/
def pushLink (allowed_domains : List String) (seen : List Url)
    (q : List Url) (full : Url) : List Url :=
  if (full.scheme = "http" ∨ full.scheme = "https") ∧
      full.netloc ∈ allowed_domains ∧ full ∉ seen ∧ full ∉ q then
    q ++ [full]
  else q

/-- The whole `for a in soup.find_all('a', href=True)` loop: each resolved
link is pushed in order against the queue as it stands at that moment. -/
def pushLinks (allowed_domains : List String) (seen : List Url)
    (q : List Url) (links : List Url) : List Url :=
  links.foldl (pushLink allowed_domains seen) q

/-- Lines 86–112 for a successfully fetched page: `s` is the state after the
pop, the robots check and the `fetch_url` call (so `url` is popped and the
fetch already logged).  If the extracted text is non-empty it is written and,
when `max_tokens` is set, the token counter is bumped and `break` fires as
soon as the counter meets the budget — skipping `seen.add(url)`, link
discovery and the sleep.  Otherwise `seen.add(url)` runs, the page's links
are filtered into the queue, and `time.sleep(delay)` ends the iteration.
The returned Bool is the `break` flag. -/
def processPage (cfg : Config) (allowed_domains : List String) (url : Url)
    (page : Page) (s : CrawlState) : CrawlState × Bool :=
  let sw :=
    if page.text = "" then (s, false)
    else
      let s1 := { s with written := s.written ++ [page.text] }
      match cfg.maxTokens with
      | none => (s1, false)
      | some m =>
          let s2 := { s1 with tokenCount := s1.tokenCount + wordCount page.text }
          (s2, decide (m ≤ s2.tokenCount))
  if sw.2 then (sw.1, true)
  else
    let s3 := { sw.1 with seen := insertSeen url sw.1.seen }
    let q := pushLinks allowed_domains s3.seen s3.queue page.links
    ({ s3 with queue := q,
               pushLog := s3.pushLog ++ q.drop s3.queue.length,
               sleeps := s3.sleeps + 1 }, false)

/-- One iteration of the `while` body (lines 71–112): pop the head, skip if
already seen, mark seen and skip on robots denial (no sleep), on a raised
fetch mark seen and sleep, and otherwise hand over to `processPage`.  The
Bool is the `break` flag that ends the run immediately. -/
def crawlStep (cfg : Config) (allowed_domains : List String) (w : World)
    (s : CrawlState) : CrawlState × Bool :=
  match s.queue with
  | [] => (s, true)
  | url :: rest =>
      let s1 := { s with queue := rest, popLog := s.popLog ++ [url] }
      if url ∈ s1.seen then (s1, false)
      else if w.robotsAllowed url = false then
        ({ s1 with seen := insertSeen url s1.seen }, false)
      else
        match w.fetch url with
        | none =>
            ({ s1 with seen := insertSeen url s1.seen,
                       fetched := s1.fetched ++ [url],
                       sleeps := s1.sleeps + 1 }, false)
        | some page =>
            processPage cfg allowed_domains url page
              { s1 with fetched := s1.fetched ++ [url] }

/-- The `while` condition (line 70): `queue` truthy, `len(seen) < max_pages`,
and `max_tokens is None or token_count < max_tokens`. -/
def crawlGuard (cfg : Config) (s : CrawlState) : Bool :=
  !s.queue.isEmpty && decide (s.seen.length < cfg.maxPages) &&
    (match cfg.maxTokens with
     | none => true
     | some m => decide (s.tokenCount < m))

/-- The `while` loop, fuel-indexed: while the guard holds, run the body; a
`break` from the body ends the run at once. -/
def crawlLoop (cfg : Config) (allowed_domains : List String) (w : World) :
    Nat → CrawlState → CrawlState
  | 0, s => s
  | n + 1, s =>
      if crawlGuard cfg s then
        let p := crawlStep cfg allowed_domains w s
        if p.2 then p.1 else crawlLoop cfg allowed_domains w n p.1
      else s

/-- `allowed_domains = set(urlparse(u).netloc for u in start_urls)` when no
explicit allow-list is given, else `set(allowed_domains)`.  Only membership
is ever consulted, so the list stands for the set. -/
def resolveAllowedDomains (start_urls : List Url) :
    Option (List String) → List String
  | none => start_urls.map (fun u => u.netloc)
  | some l => l

/-- `crawl(start_urls, ...)`: resolve the domain allow-set, initialise the
state, and iterate the loop body (with `fuel` bounding the number of
iterations of the source's unbounded `while`). -/
def crawl (cfg : Config) (w : World) (start_urls : List Url)
    (allowed_domains : Option (List String)) (fuel : Nat) : CrawlState :=
  crawlLoop cfg (resolveAllowedDomains start_urls allowed_domains) w fuel
    (initState start_urls)

/-- The spec's TerminationPolicy predicate, written from its words (§4.4):
"`shouldContinue(pagesVisited, tokensExtracted)`: returns true iff
`pagesVisited < maxPages` AND (`maxTokens` is absent OR
`tokensExtracted < maxTokens`)."  Stated for comparison against the source's
loop guard `crawlGuard`. -/
def shouldContinueSpec (cfg : Config) (pagesVisited tokensExtracted : Nat) :
    Prop :=
  pagesVisited < cfg.maxPages ∧
    (cfg.maxTokens = none ∨ ∃ m, cfg.maxTokens = some m ∧ tokensExtracted < m)

/-! ### Concrete scenarios

Worlds used to run the crawler on the spec's own test cases: an unbounded
chain of same-domain pages each yielding sixty words of text, and a world
whose robots verdict denies everything. -/

/-- Sixty whitespace-separated words, the page text of the spec's
token-budget scenario. -/
def sixtyWords : String :=
  "w w w w w w w w w w w w w w w w w w w w w w w w w w w w w w w w w w w w w w w w w w w w w w w w w w w w w w w w w w w w"

/-- The seed URL of the concrete scenarios. -/
def seedUrl : Url := ⟨"http", "example.com", "/a"⟩

/-- An infinite chain of mutually-linking pages, all on the seed's domain:
every fetch succeeds, yields `sixtyWords`, and links to one fresh URL on the
same host; robots allows everything. -/
def chainWorld : World :=
  { fetch := fun u =>
      some { text := sixtyWords,
             links := [⟨"http", "example.com", u.rest ++ "x"⟩] },
    robotsAllowed := fun _ => true }

/-- A world whose robots verdict denies every URL (fetches would succeed
with empty pages, but are never reached). -/
def denyWorld : World :=
  { fetch := fun _ => some { text := "", links := [] },
    robotsAllowed := fun _ => false }

/-! ### Helper lemmas -/

theorem mem_insertSeen_self (u : Url) (seen : List Url) :
    u ∈ insertSeen u seen := by
  unfold insertSeen
  split
  next h => exact h
  next h => simp

theorem mem_insertSeen_of_mem (u v : Url) (seen : List Url)
    (h : v ∈ seen) : v ∈ insertSeen u seen := by
  unfold insertSeen
  split
  next => exact h
  next => exact List.mem_append_left _ h

theorem insertSeen_nodup (u : Url) (seen : List Url) (h : seen.Nodup) :
    (insertSeen u seen).Nodup := by
  unfold insertSeen
  split
  next => exact h
  next hu =>
    exact List.Nodup.append h (List.nodup_singleton u)
      (by simpa using fun hm => hu hm)

theorem crawlLoop_succ (cfg : Config) (ad : List String) (w : World)
    (n : Nat) (s : CrawlState) :
    crawlLoop cfg ad w (n + 1) s =
      if crawlGuard cfg s then
        if (crawlStep cfg ad w s).2 then (crawlStep cfg ad w s).1
        else crawlLoop cfg ad w n (crawlStep cfg ad w s).1
      else s := rfl

theorem crawlLoop_stop (cfg : Config) (ad : List String) (w : World)
    (n : Nat) (s : CrawlState) (h : crawlGuard cfg s = false) :
    crawlLoop cfg ad w n s = s := by
  cases n with
  | zero => rfl
  | succ n => rw [crawlLoop_succ, h]; simp

theorem pushLink_extends (ad : List String) (seen q : List Url) (full : Url) :
    pushLink ad seen q full = q ++ [full] ∨ pushLink ad seen q full = q := by
  unfold pushLink; split <;> simp

theorem pushLink_of_mem_queue (ad : List String) (seen q : List Url)
    (full : Url) (h : full ∈ q) : pushLink ad seen q full = q := by
  unfold pushLink; split <;> simp_all

theorem pushLink_of_mem_seen (ad : List String) (seen q : List Url)
    (full : Url) (h : full ∈ seen) : pushLink ad seen q full = q := by
  unfold pushLink; split <;> simp_all

theorem mem_pushLink (ad : List String) (seen q : List Url) (full x : Url) :
    x ∈ pushLink ad seen q full ↔
      x ∈ q ∨ x = full ∧ (full.scheme = "http" ∨ full.scheme = "https") ∧
        full.netloc ∈ ad ∧ full ∉ seen ∧ full ∉ q := by
  unfold pushLink
  split
  next h =>
    simp only [List.mem_append, List.mem_singleton]
    constructor
    · rintro (hx | hx)
      · exact Or.inl hx
      · exact Or.inr ⟨hx, h⟩
    · rintro (hx | ⟨hx, _⟩)
      · exact Or.inl hx
      · exact Or.inr hx
  next h =>
    constructor
    · exact Or.inl
    · rintro (hx | ⟨rfl, hc⟩)
      · exact hx
      · exact absurd hc h

theorem mem_pushLinks (ad : List String) (seen : List Url)
    (links : List Url) (q : List Url) (x : Url) :
    x ∈ pushLinks ad seen q links ↔
      x ∈ q ∨ x ∈ links ∧ (x.scheme = "http" ∨ x.scheme = "https") ∧
        x.netloc ∈ ad ∧ x ∉ seen := by
  induction links generalizing q with
  | nil => simp [pushLinks]
  | cons l ls ih =>
      show x ∈ pushLinks ad seen (pushLink ad seen q l) ls ↔ _
      rw [ih, mem_pushLink]
      constructor
      · rintro ((hx | ⟨rfl, hs, hd, hn, _⟩) | ⟨hls, hcond⟩)
        · exact Or.inl hx
        · exact Or.inr ⟨List.mem_cons_self _ _, hs, hd, hn⟩
        · exact Or.inr ⟨List.mem_cons_of_mem _ hls, hcond⟩
      · rintro (hx | ⟨hmem, hs, hd, hn⟩)
        · exact Or.inl (Or.inl hx)
        · rcases List.mem_cons.mp hmem with rfl | hls
          · by_cases hq : x ∈ q
            · exact Or.inl (Or.inl hq)
            · exact Or.inl (Or.inr ⟨rfl, hs, hd, hn, hq⟩)
          · exact Or.inr ⟨hls, hs, hd, hn⟩

theorem pushLinks_extends (ad : List String) (seen : List Url)
    (links : List Url) (q : List Url) :
    ∃ d, pushLinks ad seen q links = q ++ d := by
  induction links generalizing q with
  | nil => exact ⟨[], (List.append_nil q).symm⟩
  | cons l ls ih =>
      show ∃ d, pushLinks ad seen (pushLink ad seen q l) ls = q ++ d
      rcases pushLink_extends ad seen q l with h | h <;> rw [h]
      · rcases ih (q ++ [l]) with ⟨d, hd⟩
        exact ⟨[l] ++ d, by rw [hd, List.append_assoc]⟩
      · exact ih q

theorem pushLinks_nodup (ad : List String) (seen : List Url)
    (links : List Url) (q : List Url) (h : q.Nodup) :
    (pushLinks ad seen q links).Nodup := by
  induction links generalizing q with
  | nil => exact h
  | cons l ls ih =>
      show (pushLinks ad seen (pushLink ad seen q l) ls).Nodup
      apply ih
      unfold pushLink
      split
      next hc =>
        exact List.Nodup.append h (List.nodup_singleton l)
          (by simpa using fun hl => hc.2.2.2 hl)
      next hc => exact h

theorem processPage_no_break (cfg : Config) (ad : List String) (url : Url)
    (page : Page) (s : CrawlState)
    (h : (processPage cfg ad url page s).2 = false) :
    (processPage cfg ad url page s).1.seen = insertSeen url s.seen ∧
    (processPage cfg ad url page s).1.queue =
      pushLinks ad (insertSeen url s.seen) s.queue page.links ∧
    (processPage cfg ad url page s).1.sleeps = s.sleeps + 1 ∧
    (processPage cfg ad url page s).1.fetched = s.fetched ∧
    (processPage cfg ad url page s).1.popLog = s.popLog ∧
    (processPage cfg ad url page s).1.pushLog =
      s.pushLog ++ (pushLinks ad (insertSeen url s.seen) s.queue
        page.links).drop s.queue.length := by
  by_cases ht : page.text = ""
  · simp [processPage, ht]
  · match hmt : cfg.maxTokens with
    | none => simp [processPage, ht, hmt]
    | some m =>
        by_cases hm : m ≤ s.tokenCount + wordCount page.text
        · exfalso
          simp [processPage, ht, hmt, hm] at h
        · simp [processPage, ht, hmt, hm]

theorem processPage_break (cfg : Config) (ad : List String) (url : Url)
    (page : Page) (s : CrawlState)
    (h : (processPage cfg ad url page s).2 = true) :
    (processPage cfg ad url page s).1.seen = s.seen ∧
    (processPage cfg ad url page s).1.queue = s.queue ∧
    (processPage cfg ad url page s).1.sleeps = s.sleeps ∧
    (processPage cfg ad url page s).1.fetched = s.fetched ∧
    (processPage cfg ad url page s).1.popLog = s.popLog ∧
    (processPage cfg ad url page s).1.pushLog = s.pushLog ∧
    page.text ≠ "" ∧
    (processPage cfg ad url page s).1.written = s.written ++ [page.text] ∧
    ∃ m, cfg.maxTokens = some m ∧
      (processPage cfg ad url page s).1.tokenCount =
        s.tokenCount + wordCount page.text ∧
      m ≤ (processPage cfg ad url page s).1.tokenCount := by
  by_cases ht : page.text = ""
  · exfalso; simp [processPage, ht] at h
  · match hmt : cfg.maxTokens with
    | none => exfalso; simp [processPage, ht, hmt] at h
    | some m =>
        by_cases hm : m ≤ s.tokenCount + wordCount page.text
        · simp [processPage, ht, hmt, hm]
        · exfalso; simp [processPage, ht, hmt, hm] at h

theorem processPage_written (cfg : Config) (ad : List String) (url : Url)
    (page : Page) (s : CrawlState) :
    (processPage cfg ad url page s).1.written = s.written ∨
      ((processPage cfg ad url page s).1.written = s.written ++ [page.text] ∧
        page.text ≠ "") := by
  by_cases ht : page.text = ""
  · left; simp [processPage, ht]
  · right
    refine ⟨?_, ht⟩
    match hmt : cfg.maxTokens with
    | none => simp [processPage, ht, hmt]
    | some m =>
        by_cases hm : m ≤ s.tokenCount + wordCount page.text
        · simp [processPage, ht, hmt, hm]
        · simp [processPage, ht, hmt, hm]

theorem crawlStep_nil (cfg : Config) (ad : List String) (w : World)
    (s : CrawlState) (h : s.queue = []) :
    crawlStep cfg ad w s = (s, true) := by
  simp [crawlStep, h]

theorem crawlStep_seen (cfg : Config) (ad : List String) (w : World)
    (s : CrawlState) (url : Url) (rest : List Url)
    (h : s.queue = url :: rest) (hs : url ∈ s.seen) :
    crawlStep cfg ad w s =
      ({ s with queue := rest, popLog := s.popLog ++ [url] }, false) := by
  simp [crawlStep, h, hs]

theorem crawlStep_robots_denied (cfg : Config) (ad : List String) (w : World)
    (s : CrawlState) (url : Url) (rest : List Url)
    (h : s.queue = url :: rest) (hs : url ∉ s.seen)
    (hr : w.robotsAllowed url = false) :
    crawlStep cfg ad w s =
      ({ s with queue := rest, popLog := s.popLog ++ [url],
                seen := insertSeen url s.seen }, false) := by
  simp [crawlStep, h, hs, hr]

theorem crawlStep_fetch_fail (cfg : Config) (ad : List String) (w : World)
    (s : CrawlState) (url : Url) (rest : List Url)
    (h : s.queue = url :: rest) (hs : url ∉ s.seen)
    (hr : w.robotsAllowed url = true) (hf : w.fetch url = none) :
    crawlStep cfg ad w s =
      ({ s with queue := rest, popLog := s.popLog ++ [url],
                seen := insertSeen url s.seen,
                fetched := s.fetched ++ [url],
                sleeps := s.sleeps + 1 }, false) := by
  simp [crawlStep, h, hs, hr, hf]

theorem crawlStep_fetch_ok (cfg : Config) (ad : List String) (w : World)
    (s : CrawlState) (url : Url) (rest : List Url) (page : Page)
    (h : s.queue = url :: rest) (hs : url ∉ s.seen)
    (hr : w.robotsAllowed url = true) (hf : w.fetch url = some page) :
    crawlStep cfg ad w s =
      processPage cfg ad url page
        { s with queue := rest, popLog := s.popLog ++ [url],
                 fetched := s.fetched ++ [url] } := by
  simp [crawlStep, h, hs, hr, hf]

/-- Invariant principle for the loop: if `P` holds initially, is preserved by
every non-breaking guarded step, implies `Q`, and every breaking step lands
in `Q`, then every run ends in `Q`. -/
theorem crawlLoop_inv (cfg : Config) (ad : List String) (w : World)
    (P Q : CrawlState → Prop) (hPQ : ∀ s, P s → Q s)
    (hbrk : ∀ s, crawlGuard cfg s = true → P s →
      (crawlStep cfg ad w s).2 = true → Q (crawlStep cfg ad w s).1)
    (hstep : ∀ s, crawlGuard cfg s = true → P s →
      (crawlStep cfg ad w s).2 = false → P (crawlStep cfg ad w s).1) :
    ∀ n s, P s → Q (crawlLoop cfg ad w n s) := by
  intro n
  induction n with
  | zero => exact fun s hP => hPQ s hP
  | succ n ih =>
      intro s hP
      rw [crawlLoop_succ]
      cases hg : crawlGuard cfg s with
      | false => simpa using hPQ s hP
      | true =>
          cases hb : (crawlStep cfg ad w s).2 with
          | false => simpa [hb] using ih _ (hstep s hg hP hb)
          | true => simpa [hb] using hbrk s hg hP hb

/-! ### Claims -/

/-- C1, counterexample: a robots.txt retrieval that fails with a raised
exception (network error or malformed content, the `except` branch of
`allowed_by_robots`) leaves the cached parser with `last_checked = 0`, and
`can_fetch` then answers `False` — so `allowed_by_robots` returns false for a
URL under that origin, not true as the claim states. -/
theorem c1_robots_fail_open_counterexample :
    (allowed_by_robots (fun _ => RobotsFetchOutcome.raised)
      ⟨"http", "example.com", "/page"⟩ []).1 = false := by decide

/-- C1, amended: `allowed_by_robots` fails open only when the robots.txt
fetch fails with an HTTP status in 400–499 other than 401/403 (then
`allow_all` is set and every URL under the origin is allowed); on 401/403 it
fails closed via `disallow_all`, and on any other failure — a raised network
or decoding error, or a status outside 400–499 — the parser keeps
`last_checked = 0` and `can_fetch` denies every URL under the origin. -/
theorem c1_robots_failure_modes (outs : Origin → RobotsFetchOutcome)
    (u : Url) :
    (outs u.origin = RobotsFetchOutcome.raised →
      (allowed_by_robots outs u []).1 = false) ∧
    ∀ code, outs u.origin = RobotsFetchOutcome.httpError code →
      ((allowed_by_robots outs u []).1 = true ↔
        400 ≤ code ∧ code < 500 ∧ code ≠ 401 ∧ code ≠ 403) := by
  constructor
  · intro h
    simp [allowed_by_robots, lookupParser, h, rpRead, canFetch,
      newRobotFileParser]
  · intro code h
    simp only [allowed_by_robots, lookupParser, h, rpRead]
    by_cases h1 : code = 401 ∨ code = 403
    · simp only [if_pos h1, canFetch, newRobotFileParser]
      simp
      omega
    · by_cases h2 : 400 ≤ code ∧ code < 500
      · simp only [if_neg h1, if_pos h2, canFetch, newRobotFileParser]
        simp
        omega
      · simp only [if_neg h1, if_neg h2, canFetch, newRobotFileParser]
        simp
        omega

/-- C1, witness: a 404 on robots.txt does fail open. -/
theorem c1_robots_failure_modes_witness :
    (allowed_by_robots (fun _ => RobotsFetchOutcome.httpError 404)
      ⟨"http", "example.com", "/page"⟩ []).1 = true :=
  ((c1_robots_failure_modes (fun _ => RobotsFetchOutcome.httpError 404)
    ⟨"http", "example.com", "/page"⟩).2 404 rfl).mpr (by decide)

/-- C2: when a page's write drives the token counter to the budget, the
`break` ends the run immediately — the loop result is the state of that very
iteration (first conjunct); a breaking iteration on a fetched page has
`max_tokens` set, has already appended the page text to the output, and its
counter meets the budget (second conjunct); and in the spec's scenario
(`maxTokens = 100`, every page sixty words) exactly two pages are ever
fetched, with no third fetch at any fuel (third conjunct). -/
theorem c2_token_budget_termination :
    (∀ (cfg : Config) (ad : List String) (w : World) (n : Nat)
        (s : CrawlState), crawlGuard cfg s = true →
        (crawlStep cfg ad w s).2 = true →
        crawlLoop cfg ad w (n + 1) s = (crawlStep cfg ad w s).1) ∧
    (∀ (cfg : Config) (ad : List String) (w : World) (s : CrawlState)
        (url : Url) (rest : List Url) (page : Page),
        s.queue = url :: rest → url ∉ s.seen → w.robotsAllowed url = true →
        w.fetch url = some page → (crawlStep cfg ad w s).2 = true →
        ∃ m, cfg.maxTokens = some m ∧
          (crawlStep cfg ad w s).1.written = s.written ++ [page.text] ∧
          (crawlStep cfg ad w s).1.tokenCount =
            s.tokenCount + wordCount page.text ∧
          m ≤ (crawlStep cfg ad w s).1.tokenCount) ∧
    ∀ n : Nat,
      (crawl ⟨100, some 100⟩ chainWorld [seedUrl] none n).fetched.length ≤ 2 ∧
      (crawl ⟨100, some 100⟩ chainWorld [seedUrl] none
        (n + 2)).fetched.length = 2 := by
  refine ⟨?_, ?_, ?_⟩
  · intro cfg ad w n s hg hb
    rw [crawlLoop_succ, if_pos hg, if_pos hb]
  · intro cfg ad w s url rest page hq hs hr hf hb
    rw [crawlStep_fetch_ok cfg ad w s url rest page hq hs hr hf] at hb ⊢
    obtain ⟨-, -, -, -, -, -, -, hw, m, hm, htok, hle⟩ :=
      processPage_break cfg ad url page _ hb
    exact ⟨m, hm, hw, htok, hle⟩
  · have key : ∀ k : Nat,
        crawl ⟨100, some 100⟩ chainWorld [seedUrl] none (k + 2) =
          (crawlStep ⟨100, some 100⟩ ["example.com"] chainWorld
            (crawlStep ⟨100, some 100⟩ ["example.com"] chainWorld
              (initState [seedUrl])).1).1 := by
      intro k
      show crawlLoop _ _ _ ((k + 1) + 1) _ = _
      rw [crawlLoop_succ, if_pos (by decide), if_neg (by decide),
        crawlLoop_succ, if_pos (by decide), if_pos (by decide)]
      decide
    intro n
    constructor
    · match n with
      | 0 => decide
      | 1 => decide
      | k + 2 => rw [key k]; decide
    · rw [key n]; decide

/-- C2, witness: a one-page world with a budget of one token breaks on the
first iteration, and the loop result at any extra fuel is that iteration's
state. -/
theorem c2_token_budget_termination_witness :
    crawlLoop ⟨100, some 1⟩ ["example.com"] chainWorld 7
        (initState [seedUrl]) =
      (crawlStep ⟨100, some 1⟩ ["example.com"] chainWorld
        (initState [seedUrl])).1 :=
  c2_token_budget_termination.1 ⟨100, some 1⟩ ["example.com"] chainWorld 6
    (initState [seedUrl]) (by decide) (by decide)

/-- C3, counterexample: with `maxTokens = 50` and a sixty-word page, the seed
URL is dequeued and successfully fetched, but the token-budget `break` fires
before `seen.add(url)` — the run ends with the dequeued, fetched URL absent
from the visited set, contradicting "regardless of outcome". -/
theorem c3_visited_on_token_break_counterexample :
    (crawl ⟨100, some 50⟩ chainWorld [seedUrl] none 5).popLog = [seedUrl] ∧
    (crawl ⟨100, some 50⟩ chainWorld [seedUrl] none 5).fetched = [seedUrl] ∧
    seedUrl ∉ (crawl ⟨100, some 50⟩ chainWorld [seedUrl] none 5).seen := by
  decide

/-- C3, amended: every URL dequeued from the frontier is recorded in the
visited set by the end of its iteration — successful fetch, robots-denied
and fetch error alike — except when that iteration's write meets the token
budget: then the run breaks before the URL is recorded and it is never
visited.  The visited set never loses members and stays duplicate-free, so
each popped URL is recorded at most once. -/
theorem c3_visited_recorded_per_pop (cfg : Config) (ad : List String)
    (w : World) (s : CrawlState) (url : Url) (rest : List Url)
    (hq : s.queue = url :: rest) :
    (crawlStep cfg ad w s).1.popLog = s.popLog ++ [url] ∧
    ((crawlStep cfg ad w s).2 = false → url ∈ (crawlStep cfg ad w s).1.seen) ∧
    (∀ v ∈ s.seen, v ∈ (crawlStep cfg ad w s).1.seen) ∧
    (s.seen.Nodup → (crawlStep cfg ad w s).1.seen.Nodup) := by
  by_cases hs : url ∈ s.seen
  · rw [crawlStep_seen cfg ad w s url rest hq hs]
    exact ⟨rfl, fun _ => hs, fun v hv => hv, fun h => h⟩
  · cases hr : w.robotsAllowed url with
    | false =>
        rw [crawlStep_robots_denied cfg ad w s url rest hq hs hr]
        exact ⟨rfl, fun _ => mem_insertSeen_self url s.seen,
          fun v hv => mem_insertSeen_of_mem url v s.seen hv,
          fun h => insertSeen_nodup url s.seen h⟩
    | true =>
        cases hf : w.fetch url with
        | none =>
            rw [crawlStep_fetch_fail cfg ad w s url rest hq hs hr hf]
            exact ⟨rfl, fun _ => mem_insertSeen_self url s.seen,
              fun v hv => mem_insertSeen_of_mem url v s.seen hv,
              fun h => insertSeen_nodup url s.seen h⟩
        | some page =>
            rw [crawlStep_fetch_ok cfg ad w s url rest page hq hs hr hf]
            cases hb : (processPage cfg ad url page
                { s with queue := rest, popLog := s.popLog ++ [url],
                         fetched := s.fetched ++ [url] }).2 with
            | false =>
                obtain ⟨hseen, -, -, -, hpop, -⟩ :=
                  processPage_no_break cfg ad url page _ hb
                refine ⟨by rw [hpop], fun _ => ?_, fun v hv => ?_, fun h => ?_⟩
                · rw [hseen]; exact mem_insertSeen_self url s.seen
                · rw [hseen]; exact mem_insertSeen_of_mem url v s.seen hv
                · rw [hseen]; exact insertSeen_nodup url s.seen h
            | true =>
                obtain ⟨hseen, -, -, -, hpop, -⟩ :=
                  processPage_break cfg ad url page _ hb
                refine ⟨by rw [hpop], fun hfalse => ?_, fun v hv => ?_,
                  fun h => ?_⟩
                · exact absurd hfalse (by simp)
                · rw [hseen]; exact hv
                · rw [hseen]; exact h

/-- C3, witness: a robots-denied pop is recorded as visited. -/
theorem c3_visited_recorded_per_pop_witness :
    seedUrl ∈ (crawlStep ⟨100, none⟩ ["example.com"] denyWorld
      (initState [seedUrl])).1.seen :=
  (c3_visited_recorded_per_pop ⟨100, none⟩ ["example.com"] denyWorld
    (initState [seedUrl]) seedUrl [] rfl).2.1 (by decide)

/-- C4: the loop guard is exactly "frontier non-empty and
`shouldContinue(len(seen), token_count)`" in the spec's sense (first
conjunct); once the guard is false no iteration runs, so no fetch is ever
issued outside the limits (second conjunct); and on an unbounded chain of
mutually-linking allowed pages with `maxPages = 3`, exactly three pages are
fetched at any sufficient fuel and never more (third conjunct). -/
theorem c4_fetch_only_within_limits :
    (∀ (cfg : Config) (s : CrawlState),
        crawlGuard cfg s = true ↔
          s.queue ≠ [] ∧ shouldContinueSpec cfg s.seen.length s.tokenCount) ∧
    (∀ (cfg : Config) (ad : List String) (w : World) (n : Nat)
        (s : CrawlState), crawlGuard cfg s = false →
        crawlLoop cfg ad w n s = s) ∧
    ∀ n : Nat,
      (crawl ⟨3, none⟩ chainWorld [seedUrl] none n).fetched.length ≤ 3 ∧
      (crawl ⟨3, none⟩ chainWorld [seedUrl] none (n + 3)).fetched.length = 3 := by
  refine ⟨?_, ?_, ?_⟩
  · intro cfg s
    unfold crawlGuard shouldContinueSpec
    cases hmt : cfg.maxTokens with
    | none =>
        simp [List.isEmpty_iff]
    | some m =>
        simp [List.isEmpty_iff]
        tauto
  · exact fun cfg ad w n s h => crawlLoop_stop cfg ad w n s h
  · have key : ∀ k : Nat,
        crawl ⟨3, none⟩ chainWorld [seedUrl] none (k + 3) =
          (crawlStep ⟨3, none⟩ ["example.com"] chainWorld
            (crawlStep ⟨3, none⟩ ["example.com"] chainWorld
              (crawlStep ⟨3, none⟩ ["example.com"] chainWorld
                (initState [seedUrl])).1).1).1 := by
      intro k
      show crawlLoop _ _ _ (((k + 1) + 1) + 1) _ = _
      rw [crawlLoop_succ, if_pos (by decide), if_neg (by decide),
        crawlLoop_succ, if_pos (by decide), if_neg (by decide),
        crawlLoop_succ, if_pos (by decide), if_neg (by decide)]
      rw [crawlLoop_stop _ _ _ _ _ (by decide)]
      decide
    intro n
    constructor
    · match n with
      | 0 => decide
      | 1 => decide
      | 2 => decide
      | k + 3 => rw [key k]; decide
    · rw [key n]; decide

/-- C4, witness: with the page limit already reached, the loop does nothing
(the guard is false at `maxPages = 0`). -/
theorem c4_fetch_only_within_limits_witness :
    crawlLoop ⟨0, none⟩ ["example.com"] chainWorld 9
      (initState [seedUrl]) = initState [seedUrl] :=
  c4_fetch_only_within_limits.2.1 ⟨0, none⟩ ["example.com"] chainWorld 9
    (initState [seedUrl]) (by decide)

/-- C5: in a successful non-breaking iteration the new queue is exactly the
old remainder run through the per-link filter over the page's resolved links
(first conjunct); one link is appended iff its scheme is http or https, its
host is in the allow-set, and it is in neither the visited set nor the
pending queue at that moment (second conjunct); and a URL belongs to the
queue after the whole discovery loop iff it was already pending or is an
eligible, unvisited discovered link (third conjunct). -/
theorem c5_link_push_filter :
    (∀ (cfg : Config) (ad : List String) (w : World) (s : CrawlState)
        (url : Url) (rest : List Url) (page : Page),
        s.queue = url :: rest → url ∉ s.seen → w.robotsAllowed url = true →
        w.fetch url = some page → (crawlStep cfg ad w s).2 = false →
        (crawlStep cfg ad w s).1.queue =
          pushLinks ad (insertSeen url s.seen) rest page.links) ∧
    (∀ (ad : List String) (seen q : List Url) (full : Url),
        pushLink ad seen q full = q ++ [full] ↔
          (full.scheme = "http" ∨ full.scheme = "https") ∧
            full.netloc ∈ ad ∧ full ∉ seen ∧ full ∉ q) ∧
    ∀ (ad : List String) (seen links q : List Url) (x : Url),
      x ∈ pushLinks ad seen q links ↔
        x ∈ q ∨ x ∈ links ∧ (x.scheme = "http" ∨ x.scheme = "https") ∧
          x.netloc ∈ ad ∧ x ∉ seen := by
  refine ⟨?_, ?_, ?_⟩
  · intro cfg ad w s url rest page hq hs hr hf hb
    rw [crawlStep_fetch_ok cfg ad w s url rest page hq hs hr hf] at hb ⊢
    obtain ⟨-, hqueue, -, -, -, -⟩ := processPage_no_break cfg ad url page _ hb
    exact hqueue
  · intro ad seen q full
    unfold pushLink
    split
    next h => simp [h]
    next h =>
      constructor
      · intro he
        exfalso
        have := congrArg List.length he
        simp at this
      · intro hc
        exact absurd hc h
  · exact fun ad seen links q x => mem_pushLinks ad seen links q x

/-- C5, witness: on the chain world's first iteration the queue becomes the
filter of the page's single same-domain link against the empty remainder. -/
theorem c5_link_push_filter_witness :
    (crawlStep ⟨100, none⟩ ["example.com"] chainWorld
      (initState [seedUrl])).1.queue =
      pushLinks ["example.com"] (insertSeen seedUrl [])
        [] [⟨"http", "example.com", "/ax"⟩] :=
  c5_link_push_filter.1 ⟨100, none⟩ ["example.com"] chainWorld
    (initState [seedUrl]) seedUrl [] ⟨sixtyWords, [⟨"http", "example.com", "/ax"⟩]⟩
    rfl (by decide) rfl rfl (by decide)

/-- C6, counterexample: `queue = list(start_urls)` copies the seed list
verbatim, so a duplicated seed yields two identical pending entries — the
pending sequence of the initial state is not duplicate-free. -/
theorem c6_pending_duplicates_counterexample :
    ¬ (initState [seedUrl, seedUrl]).queue.Nodup := by decide

/-- C6, amended: a URL already present in the pending queue (or already
visited) is never appended again by link discovery, so pushing the same URL
twice before it is popped leaves exactly one pending entry and the pending
sequence stays duplicate-free through every iteration and every run — but
only beyond the seed list, which is placed into the initial queue verbatim,
duplicates included. -/
theorem c6_idempotent_enqueue :
    (∀ (ad : List String) (seen q : List Url) (full : Url), full ∈ q →
        pushLink ad seen q full = q) ∧
    (∀ (cfg : Config) (ad : List String) (w : World) (s : CrawlState),
        s.queue.Nodup → (crawlStep cfg ad w s).1.queue.Nodup) ∧
    (∀ (cfg : Config) (ad : List String) (w : World) (n : Nat)
        (s : CrawlState), s.queue.Nodup →
        (crawlLoop cfg ad w n s).queue.Nodup) ∧
    ∀ seeds : List Url, (initState seeds).queue = seeds := by
  have hstep : ∀ (cfg : Config) (ad : List String) (w : World)
      (s : CrawlState), s.queue.Nodup → (crawlStep cfg ad w s).1.queue.Nodup := by
    intro cfg ad w s hnd
    match hq : s.queue with
    | [] => rw [crawlStep_nil cfg ad w s hq]; exact hnd
    | url :: rest =>
        rw [hq] at hnd
        have hrest : rest.Nodup := hnd.of_cons
        by_cases hs : url ∈ s.seen
        · rw [crawlStep_seen cfg ad w s url rest hq hs]; exact hrest
        · cases hr : w.robotsAllowed url with
          | false =>
              rw [crawlStep_robots_denied cfg ad w s url rest hq hs hr]
              exact hrest
          | true =>
              cases hf : w.fetch url with
              | none =>
                  rw [crawlStep_fetch_fail cfg ad w s url rest hq hs hr hf]
                  exact hrest
              | some page =>
                  rw [crawlStep_fetch_ok cfg ad w s url rest page hq hs hr hf]
                  cases hb : (processPage cfg ad url page
                      { s with queue := rest, popLog := s.popLog ++ [url],
                               fetched := s.fetched ++ [url] }).2 with
                  | false =>
                      obtain ⟨-, hqueue, -, -, -, -⟩ :=
                        processPage_no_break cfg ad url page _ hb
                      rw [hqueue]
                      exact pushLinks_nodup _ _ _ _ hrest
                  | true =>
                      obtain ⟨-, hqueue, -, -, -, -⟩ :=
                        processPage_break cfg ad url page _ hb
                      rw [hqueue]
                      exact hrest
  refine ⟨?_, hstep, ?_, fun seeds => rfl⟩
  · exact fun ad seen q full h => pushLink_of_mem_queue ad seen q full h
  · intro cfg ad w n s h
    exact crawlLoop_inv cfg ad w (fun t => t.queue.Nodup)
      (fun t => t.queue.Nodup) (fun _ ht => ht)
      (fun t _ ht _ => hstep cfg ad w t ht)
      (fun t _ ht _ => hstep cfg ad w t ht) n s h

/-- C6, witness: appending an already-pending URL is a no-op. -/
theorem c6_idempotent_enqueue_witness :
    pushLink ["example.com"] [] [seedUrl] seedUrl = [seedUrl] :=
  c6_idempotent_enqueue.1 ["example.com"] [] [seedUrl] seedUrl (by decide)

theorem nodup_append_singleton {α : Type} {l : List α} {a : α}
    (h : l.Nodup) (ha : a ∉ l) : (l ++ [a]).Nodup :=
  List.Nodup.append h (List.nodup_singleton a)
    (by simpa using fun hm => ha hm)

/-- C7: a URL in the visited set is never pushed back into the pending
queue (first conjunct); a popped URL that is already visited is skipped —
the iteration only drops it from the queue and logs the pop, with no fetch
and no other state change (second conjunct); and consequently in every run
from an initial state the list of fetched URLs has no duplicates: each URL
is fetched at most once (third conjunct). -/
theorem c7_processed_at_most_once :
    (∀ (ad : List String) (seen q : List Url) (full : Url), full ∈ seen →
        pushLink ad seen q full = q) ∧
    (∀ (cfg : Config) (ad : List String) (w : World) (s : CrawlState)
        (url : Url) (rest : List Url), s.queue = url :: rest →
        url ∈ s.seen →
        crawlStep cfg ad w s =
          ({ s with queue := rest, popLog := s.popLog ++ [url] }, false)) ∧
    ∀ (cfg : Config) (ad : List String) (w : World) (n : Nat)
      (seeds : List Url),
      (crawlLoop cfg ad w n (initState seeds)).fetched.Nodup := by
  refine ⟨?_, ?_, ?_⟩
  · exact fun ad seen q full h => pushLink_of_mem_seen ad seen q full h
  · exact fun cfg ad w s url rest hq hs => crawlStep_seen cfg ad w s url rest hq hs
  · intro cfg ad w n seeds
    have key := crawlLoop_inv cfg ad w
      (fun t => t.fetched.Nodup ∧ ∀ u ∈ t.fetched, u ∈ t.seen)
      (fun t => t.fetched.Nodup)
      (fun t ht => ht.1) ?_ ?_ n (initState seeds)
      ⟨List.nodup_nil, fun u hu => absurd hu (List.not_mem_nil u)⟩
    · exact key
    · intro s _ hP hb
      match hq : s.queue with
      | [] =>
          rw [crawlStep_nil cfg ad w s hq]
          exact hP.1
      | url :: rest =>
          by_cases hs : url ∈ s.seen
          · rw [crawlStep_seen cfg ad w s url rest hq hs]; exact hP.1
          · cases hr : w.robotsAllowed url with
            | false =>
                rw [crawlStep_robots_denied cfg ad w s url rest hq hs hr]
                exact hP.1
            | true =>
                cases hf : w.fetch url with
                | none =>
                    rw [crawlStep_fetch_fail cfg ad w s url rest hq hs hr hf]
                    exact nodup_append_singleton hP.1
                      (fun hm => hs (hP.2 url hm))
                | some page =>
                    rw [crawlStep_fetch_ok cfg ad w s url rest page hq hs hr hf]
                    rw [crawlStep_fetch_ok cfg ad w s url rest page hq hs hr hf]
                      at hb
                    cases hpb : (processPage cfg ad url page
                        { s with queue := rest, popLog := s.popLog ++ [url],
                                 fetched := s.fetched ++ [url] }).2 with
                    | false =>
                        obtain ⟨-, -, -, hfetch, -, -⟩ :=
                          processPage_no_break cfg ad url page _ hpb
                        rw [hfetch]
                        exact nodup_append_singleton hP.1
                          (fun hm => hs (hP.2 url hm))
                    | true =>
                        obtain ⟨-, -, -, hfetch, -, -⟩ :=
                          processPage_break cfg ad url page _ hpb
                        rw [hfetch]
                        exact nodup_append_singleton hP.1
                          (fun hm => hs (hP.2 url hm))
    · intro s _ hP hb
      match hq : s.queue with
      | [] =>
          rw [crawlStep_nil cfg ad w s hq]
          exact hP
      | url :: rest =>
          by_cases hs : url ∈ s.seen
          · rw [crawlStep_seen cfg ad w s url rest hq hs]; exact hP
          · cases hr : w.robotsAllowed url with
            | false =>
                rw [crawlStep_robots_denied cfg ad w s url rest hq hs hr]
                refine ⟨hP.1, fun u hu => ?_⟩
                exact mem_insertSeen_of_mem url u s.seen (hP.2 u hu)
            | true =>
                cases hf : w.fetch url with
                | none =>
                    rw [crawlStep_fetch_fail cfg ad w s url rest hq hs hr hf]
                    refine ⟨nodup_append_singleton hP.1
                      (fun hm => hs (hP.2 url hm)), fun u hu => ?_⟩
                    rcases List.mem_append.mp hu with hu | hu
                    · exact mem_insertSeen_of_mem url u s.seen (hP.2 u hu)
                    · have heq : u = url := List.mem_singleton.mp hu
                      rw [heq]
                      exact mem_insertSeen_self url s.seen
                | some page =>
                    rw [crawlStep_fetch_ok cfg ad w s url rest page hq hs hr hf]
                    rw [crawlStep_fetch_ok cfg ad w s url rest page hq hs hr hf]
                      at hb
                    obtain ⟨hseen, -, -, hfetch, -, -⟩ :=
                      processPage_no_break cfg ad url page _ hb
                    rw [hseen, hfetch]
                    refine ⟨nodup_append_singleton hP.1
                      (fun hm => hs (hP.2 url hm)), fun u hu => ?_⟩
                    rcases List.mem_append.mp hu with hu | hu
                    · exact mem_insertSeen_of_mem url u _ (hP.2 u hu)
                    · have heq : u = url := List.mem_singleton.mp hu
                      rw [heq]
                      exact mem_insertSeen_self url _

/-- C7, witness: a visited URL is not re-enqueued. -/
theorem c7_processed_at_most_once_witness :
    pushLink ["example.com"] [seedUrl] [] seedUrl = [] :=
  c7_processed_at_most_once.1 ["example.com"] [seedUrl] [] seedUrl (by decide)

theorem indexOf_mono_of_append {α : Type} [DecidableEq α]
    {P t L : List α} {a b : α} (ht : P ++ t = L)
    (hab : L.indexOf a < L.indexOf b) (hbP : b ∈ P) :
    a ∈ P ∧ P.indexOf a < P.indexOf b := by
  have hbL : L.indexOf b = P.indexOf b := by
    rw [← ht]; exact List.indexOf_append_of_mem hbP
  have hPb : P.indexOf b < P.length := List.indexOf_lt_length.mpr hbP
  have haP : L.indexOf a < P.length := by rw [hbL] at hab; exact hab.trans hPb
  have haPmem : a ∈ P := by
    by_contra hnot
    have hidx : L.indexOf a = P.length + t.indexOf a := by
      rw [← ht]; exact List.indexOf_append_of_not_mem hnot
    omega
  have haLeq : L.indexOf a = P.indexOf a := by
    rw [← ht]; exact List.indexOf_append_of_mem haPmem
  exact ⟨haPmem, by rw [← haLeq, ← hbL]; exact hab⟩

/-- C8: in every run the pop log is an initial segment of the push log —
URLs leave the frontier in exactly the order they entered it (first
conjunct); hence for two URLs with the first pushed strictly before the
second (first-occurrence order of the push log), if the second has been
popped then the first was popped strictly earlier (second conjunct). -/
theorem c8_fifo_order :
    (∀ (cfg : Config) (ad : List String) (w : World) (n : Nat)
        (seeds : List Url),
        ∃ t, (crawlLoop cfg ad w n (initState seeds)).pushLog =
          (crawlLoop cfg ad w n (initState seeds)).popLog ++ t) ∧
    ∀ (cfg : Config) (ad : List String) (w : World) (n : Nat)
      (seeds : List Url) (a b : Url),
      (crawlLoop cfg ad w n (initState seeds)).pushLog.indexOf a <
        (crawlLoop cfg ad w n (initState seeds)).pushLog.indexOf b →
      b ∈ (crawlLoop cfg ad w n (initState seeds)).popLog →
      a ∈ (crawlLoop cfg ad w n (initState seeds)).popLog ∧
        (crawlLoop cfg ad w n (initState seeds)).popLog.indexOf a <
          (crawlLoop cfg ad w n (initState seeds)).popLog.indexOf b := by
  have inv : ∀ (cfg : Config) (ad : List String) (w : World) (n : Nat)
      (seeds : List Url),
      (crawlLoop cfg ad w n (initState seeds)).popLog ++
        (crawlLoop cfg ad w n (initState seeds)).queue =
        (crawlLoop cfg ad w n (initState seeds)).pushLog := by
    intro cfg ad w n seeds
    have hstep : ∀ s : CrawlState, s.popLog ++ s.queue = s.pushLog →
        (crawlStep cfg ad w s).1.popLog ++ (crawlStep cfg ad w s).1.queue =
          (crawlStep cfg ad w s).1.pushLog := by
      intro s hP
      match hq : s.queue with
      | [] => rw [crawlStep_nil cfg ad w s hq]; exact hP
      | url :: rest =>
          rw [hq] at hP
          by_cases hs : url ∈ s.seen
          · rw [crawlStep_seen cfg ad w s url rest hq hs]
            simpa [List.append_assoc] using hP
          · cases hr : w.robotsAllowed url with
            | false =>
                rw [crawlStep_robots_denied cfg ad w s url rest hq hs hr]
                simpa [List.append_assoc] using hP
            | true =>
                cases hf : w.fetch url with
                | none =>
                    rw [crawlStep_fetch_fail cfg ad w s url rest hq hs hr hf]
                    simpa [List.append_assoc] using hP
                | some page =>
                    rw [crawlStep_fetch_ok cfg ad w s url rest page hq hs hr hf]
                    cases hb : (processPage cfg ad url page
                        { s with queue := rest, popLog := s.popLog ++ [url],
                                 fetched := s.fetched ++ [url] }).2 with
                    | false =>
                        obtain ⟨-, hqueue, -, -, hpop, hpush⟩ :=
                          processPage_no_break cfg ad url page _ hb
                        obtain ⟨d, hd⟩ := pushLinks_extends ad
                          (insertSeen url s.seen) page.links rest
                        rw [hqueue, hpop, hpush]
                        show (s.popLog ++ [url]) ++
                            pushLinks ad (insertSeen url s.seen) rest
                              page.links =
                          s.pushLog ++ (pushLinks ad (insertSeen url s.seen)
                            rest page.links).drop rest.length
                        rw [hd, List.drop_left, ← hP]
                        simp [List.append_assoc]
                    | true =>
                        obtain ⟨-, hqueue, -, -, hpop, hpush, -, -, -⟩ :=
                          processPage_break cfg ad url page _ hb
                        rw [hqueue, hpop, hpush]
                        show (s.popLog ++ [url]) ++ rest = s.pushLog
                        simpa [List.append_assoc] using hP
    exact crawlLoop_inv cfg ad w
      (fun t => t.popLog ++ t.queue = t.pushLog)
      (fun t => t.popLog ++ t.queue = t.pushLog)
      (fun _ h => h) (fun t _ h _ => hstep t h) (fun t _ h _ => hstep t h)
      n (initState seeds) (by simp [initState])
  refine ⟨fun cfg ad w n seeds => ⟨_, (inv cfg ad w n seeds).symm⟩, ?_⟩
  intro cfg ad w n seeds a b hab hbP
  exact indexOf_mono_of_append (inv cfg ad w n seeds) hab hbP

/-- C8, witness: in the three-page chain run, the seed was popped before the
second discovered page. -/
theorem c8_fifo_order_witness :
    seedUrl ∈ (crawlLoop ⟨3, none⟩ ["example.com"] chainWorld 9
        (initState [seedUrl])).popLog ∧
      (crawlLoop ⟨3, none⟩ ["example.com"] chainWorld 9
          (initState [seedUrl])).popLog.indexOf seedUrl <
        (crawlLoop ⟨3, none⟩ ["example.com"] chainWorld 9
            (initState [seedUrl])).popLog.indexOf
          ⟨"http", "example.com", "/ax"⟩ :=
  c8_fifo_order.2 ⟨3, none⟩ ["example.com"] chainWorld 9 [seedUrl]
    seedUrl ⟨"http", "example.com", "/ax"⟩ (by decide) (by decide)

/-- C9, counterexample: a robots-denied URL is processed with no
`time.sleep(delay)` at all — the denial branch `continue`s before line 112 —
so the delay is not applied in every outcome case as claimed. -/
theorem c9_no_sleep_on_robots_denied_counterexample :
    (crawl ⟨100, none⟩ denyWorld [seedUrl] none 5).popLog = [seedUrl] ∧
    (crawl ⟨100, none⟩ denyWorld [seedUrl] none 5).seen = [seedUrl] ∧
    (crawl ⟨100, none⟩ denyWorld [seedUrl] none 5).sleeps = 0 := by
  decide

/-- C9, amended: the fixed inter-request delay runs after a failed fetch and
after a successfully fetched page that does not trigger the token-budget
break; it does not run after a robots-denied URL, after a skipped
already-visited URL, or when the token-budget break ends the run. -/
theorem c9_sleep_per_outcome (cfg : Config) (ad : List String) (w : World)
    (s : CrawlState) (url : Url) (rest : List Url)
    (hq : s.queue = url :: rest) :
    (url ∈ s.seen → (crawlStep cfg ad w s).1.sleeps = s.sleeps) ∧
    (url ∉ s.seen → w.robotsAllowed url = false →
      (crawlStep cfg ad w s).1.sleeps = s.sleeps) ∧
    (url ∉ s.seen → w.robotsAllowed url = true → w.fetch url = none →
      (crawlStep cfg ad w s).1.sleeps = s.sleeps + 1) ∧
    (∀ page, url ∉ s.seen → w.robotsAllowed url = true →
      w.fetch url = some page → (crawlStep cfg ad w s).2 = false →
      (crawlStep cfg ad w s).1.sleeps = s.sleeps + 1) ∧
    (∀ page, url ∉ s.seen → w.robotsAllowed url = true →
      w.fetch url = some page → (crawlStep cfg ad w s).2 = true →
      (crawlStep cfg ad w s).1.sleeps = s.sleeps) := by
  refine ⟨?_, ?_, ?_, ?_, ?_⟩
  · intro hs
    rw [crawlStep_seen cfg ad w s url rest hq hs]
  · intro hs hr
    rw [crawlStep_robots_denied cfg ad w s url rest hq hs hr]
  · intro hs hr hf
    rw [crawlStep_fetch_fail cfg ad w s url rest hq hs hr hf]
  · intro page hs hr hf hb
    rw [crawlStep_fetch_ok cfg ad w s url rest page hq hs hr hf] at hb ⊢
    obtain ⟨-, -, hsleeps, -, -, -⟩ := processPage_no_break cfg ad url page _ hb
    exact hsleeps
  · intro page hs hr hf hb
    rw [crawlStep_fetch_ok cfg ad w s url rest page hq hs hr hf] at hb ⊢
    obtain ⟨-, -, hsleeps, -, -, -⟩ := processPage_break cfg ad url page _ hb
    exact hsleeps

/-- C9, witness: a failed fetch still sleeps once. -/
theorem c9_sleep_per_outcome_witness :
    (crawlStep ⟨100, none⟩ ["example.com"]
        ⟨fun _ => none, fun _ => true⟩ (initState [seedUrl])).1.sleeps =
      (initState [seedUrl]).sleeps + 1 :=
  (c9_sleep_per_outcome ⟨100, none⟩ ["example.com"]
    ⟨fun _ => none, fun _ => true⟩ (initState [seedUrl]) seedUrl [] rfl).2.2.1
    (by decide) rfl rfl

/-- C10: a dequeued URL counts toward `maxPages` whatever happened to it —
robots-denied, failed fetch, and successful fetch with empty extracted text
all insert the URL into the visited set (first three conjuncts), whose size
is exactly what the loop guard compares against `maxPages` (fourth
conjunct); and the output sink only ever receives non-empty extracted text
(fifth conjunct). -/
theorem c10_visited_counts_all_outcomes :
    (∀ (cfg : Config) (ad : List String) (w : World) (s : CrawlState)
        (url : Url) (rest : List Url), s.queue = url :: rest →
        url ∉ s.seen → w.robotsAllowed url = false →
        (crawlStep cfg ad w s).1.seen = insertSeen url s.seen) ∧
    (∀ (cfg : Config) (ad : List String) (w : World) (s : CrawlState)
        (url : Url) (rest : List Url), s.queue = url :: rest →
        url ∉ s.seen → w.robotsAllowed url = true → w.fetch url = none →
        (crawlStep cfg ad w s).1.seen = insertSeen url s.seen) ∧
    (∀ (cfg : Config) (ad : List String) (w : World) (s : CrawlState)
        (url : Url) (rest : List Url) (page : Page), s.queue = url :: rest →
        url ∉ s.seen → w.robotsAllowed url = true →
        w.fetch url = some page → page.text = "" →
        (crawlStep cfg ad w s).2 = false ∧
          (crawlStep cfg ad w s).1.seen = insertSeen url s.seen) ∧
    (∀ (cfg : Config) (s : CrawlState), crawlGuard cfg s = true →
        s.seen.length < cfg.maxPages) ∧
    ∀ (cfg : Config) (ad : List String) (w : World) (n : Nat)
      (seeds : List Url),
      ∀ text ∈ (crawlLoop cfg ad w n (initState seeds)).written, text ≠ "" := by
  refine ⟨?_, ?_, ?_, ?_, ?_⟩
  · intro cfg ad w s url rest hq hs hr
    rw [crawlStep_robots_denied cfg ad w s url rest hq hs hr]
  · intro cfg ad w s url rest hq hs hr hf
    rw [crawlStep_fetch_fail cfg ad w s url rest hq hs hr hf]
  · intro cfg ad w s url rest page hq hs hr hf htext
    rw [crawlStep_fetch_ok cfg ad w s url rest page hq hs hr hf]
    have hb : (processPage cfg ad url page
        { s with queue := rest, popLog := s.popLog ++ [url],
                 fetched := s.fetched ++ [url] }).2 = false := by
      simp [processPage, htext]
    refine ⟨hb, ?_⟩
    obtain ⟨hseen, -, -, -, -, -⟩ := processPage_no_break cfg ad url page _ hb
    exact hseen
  · intro cfg s hg
    unfold crawlGuard at hg
    simp only [Bool.and_eq_true, decide_eq_true_eq] at hg
    exact hg.1.2
  · intro cfg ad w n seeds
    have hstep : ∀ s : CrawlState, (∀ text ∈ s.written, text ≠ "") →
        ∀ text ∈ (crawlStep cfg ad w s).1.written, text ≠ "" := by
      intro s hP
      match hq : s.queue with
      | [] => rw [crawlStep_nil cfg ad w s hq]; exact hP
      | url :: rest =>
          by_cases hs : url ∈ s.seen
          · rw [crawlStep_seen cfg ad w s url rest hq hs]; exact hP
          · cases hr : w.robotsAllowed url with
            | false =>
                rw [crawlStep_robots_denied cfg ad w s url rest hq hs hr]
                exact hP
            | true =>
                cases hf : w.fetch url with
                | none =>
                    rw [crawlStep_fetch_fail cfg ad w s url rest hq hs hr hf]
                    exact hP
                | some page =>
                    rw [crawlStep_fetch_ok cfg ad w s url rest page hq hs hr hf]
                    rcases processPage_written cfg ad url page
                        { s with queue := rest, popLog := s.popLog ++ [url],
                                 fetched := s.fetched ++ [url] } with
                      hw | ⟨hw, hne⟩
                    · rw [hw]; exact hP
                    · rw [hw]
                      intro text hmem
                      rcases List.mem_append.mp hmem with hmem | hmem
                      · exact hP text hmem
                      · rw [List.mem_singleton.mp hmem]; exact hne
    exact crawlLoop_inv cfg ad w
      (fun t => ∀ text ∈ t.written, text ≠ "")
      (fun t => ∀ text ∈ t.written, text ≠ "")
      (fun _ h => h) (fun t _ h _ => hstep t h) (fun t _ h _ => hstep t h)
      n (initState seeds)
      (fun text hmem => absurd hmem (List.not_mem_nil text))

/-- C10, witness: a robots-denied dequeue inserts the URL into the visited
set. -/
theorem c10_visited_counts_all_outcomes_witness :
    (crawlStep ⟨100, none⟩ ["example.com"] denyWorld
        (initState [seedUrl])).1.seen = insertSeen seedUrl [] :=
  c10_visited_counts_all_outcomes.1 ⟨100, none⟩ ["example.com"] denyWorld
    (initState [seedUrl]) seedUrl [] rfl (by decide) rfl

end Scraper
